import Mathlib

/-!
Verification of the SeaHorn bit-precise operational semantics engine
(`BvOpSem2.cc`, `BvOpSem2Context.hh`, `Yices2Impl.cc`) against its
natural-language specification.

The development is a shallow embedding: symbolic terms produced by the
engine are modelled by the inductive type `SExpr`, the symbolic store by a
total function from register names (natural numbers) to terms, and each
C++ routine relevant to a claim is translated into an executable Lean
function that mirrors the source's control flow.
-/

namespace SeaHorn

/-- Symbolic terms produced by the operational-semantics engine.
Constructors mirror the term constructors used in `BvOpSem2.cc`:
boolean literals (`trueE`/`falseE`), the null pointer `mem().nullPtr()`,
the pointer sort `mem().ptrSort()`, boolean negation and disjunction
(`boolop::lneg`, `boolop::lor`), equality (`mk<EQ>` used by `addDef`),
constant arrays (`op::array::constArray`), array selection, the
bv1/boolean coercions of the ALU, the terms produced by
`loadValueFromMem` / `storeValueToMem` / `MemSet` / `MemCpy`, and fresh
nondeterministic constants produced by `havoc`. -/
inductive SExpr where
  | boolLit (b : Bool)
  | nullPtr
  | ptrSortE
  | negE (e : SExpr)
  | lorE (a b : SExpr)
  | eqE (a b : SExpr)
  | constArray (sort v : SExpr)
  | select (a i : SExpr)
  | bv1ToBool (e : SExpr)
  | boolToBv1 (e : SExpr)
  | loadVal (ptr mem : SExpr)
  | storeVal (v ptr mem : SExpr)
  | memSetE (ptr v : SExpr) (len : Nat) (mem : SExpr)
  | memCpyE (dst src : SExpr) (len : Nat) (trsfr mem : SExpr)
  | havocE (r n : Nat)
  deriving DecidableEq

/-- A symbolic store (`SymStore`): maps each register name to its current
symbolic value.  `SymStore::read` materializes a value for every register,
so the store is modelled as a total function. -/
def Store := Nat → SExpr

/-- Write a value to a register of the store (`SymStore::write`). -/
def writeStore (s : Store) (r : Nat) (v : SExpr) : Store :=
  fun x => if x = r then v else s x

@[simp] theorem writeStore_same (s : Store) (r : Nat) (v : SExpr) :
    writeStore s r v r = v := by simp [writeStore]

@[simp] theorem writeStore_other (s : Store) (r x : Nat) (v : SExpr)
    (h : x ≠ r) : writeStore s r v x = s x := by simp [writeStore, h]

/-- The fresh nondeterministic value written by `havoc` for register `r`
(`m_ctx.havoc(reg)` writes a fresh symbolic constant for the register). -/
def havocVal (r : Nat) : SExpr := SExpr.havocE r 0

/-! ### PHI resolution (`OpSemPhiVisitor::visitBasicBlock`) -/

/-- An operand of a PHI node, as consumed by `lookup` /
`Bv2OpSem::getOperandValue`: either an SSA value held in a register, a
constant, or a value for which `getOperandValue` returns the null
expression (a skipped/unregistered value). -/
inductive PhiOperand where
  | fromReg (r : Nat)
  | lit (e : SExpr)
  | missing
  deriving DecidableEq

/-- Operand lookup (`OpSemVisitorBase::lookup` via
`Bv2OpSem::getOperandValue`): registers are read from the store, constants
evaluate to themselves, and unresolvable values yield the null expression
(modelled as `none`). -/
def lookupOp (s : Store) : PhiOperand → Option SExpr
  | .fromReg r => some (s r)
  | .lit e => some e
  | .missing => none

/-- A PHI node of a basic block: its result register, whether the engine
skips it (`m_sem.isSkipped(*phi)`), and its incoming value for each
predecessor block (`phi->getIncomingValueForBlock`). -/
structure PhiNode where
  reg : Nat
  skipped : Bool
  incoming : Nat → PhiOperand

/-- `OpSemVisitorBase::setValue`: a non-null expression is written to the
value's register; a null expression makes the engine havoc the register
with a fresh nondeterministic value. -/
def setValueS (s : Store) (r : Nat) : Option SExpr → Store
  | some e => writeStore s r e
  | none => writeStore s r (havocVal r)

/-- First loop of `OpSemPhiVisitor::visitBasicBlock`: evaluate the
incoming values of all non-skipped PHI nodes of the block against the
previous block `prev`, in declaration order, before any register is
written (`ops.push_back(lookup(v))`). -/
def phiReadOps (s : Store) (prev : Nat) : List PhiNode → List (Option SExpr)
  | [] => []
  | p :: ps =>
    if p.skipped then phiReadOps s prev ps
    else lookupOp s (p.incoming prev) :: phiReadOps s prev ps

/-- Second loop of `OpSemPhiVisitor::visitBasicBlock`: write the
previously collected values to the PHI registers in declaration order
(`setValue(*phi, ops[i++])`); skipped PHI nodes consume no value. -/
def phiWriteOps : List PhiNode → List (Option SExpr) → Store → Store
  | [], _, s => s
  | p :: ps, ops, s =>
    if p.skipped then phiWriteOps ps ops s
    else
      match ops with
      | [] => s
      | o :: rest => phiWriteOps ps rest (setValueS s p.reg o)

/-- `OpSemPhiVisitor::visitBasicBlock`: evaluate all PHI nodes of a block
atomically with respect to previous block `prev` — all incoming values
are read first, then all PHI registers are written. -/
def phiVisitBasicBlock (phis : List PhiNode) (prev : Nat) (s : Store) :
    Store :=
  phiWriteOps phis (phiReadOps s prev phis) s

/-- Store used as a concrete environment in witnesses. -/
def s0 : Store := fun n => SExpr.havocE n 7

/-- C1: PHI resolution at block entry is atomic.  For a block with two
PHI nodes that reference each other's value from the previous block, both
PHI registers receive the pre-update values, independent of the PHIs'
declaration order: the first register always receives the old value of
the second and vice versa. -/
theorem phi_resolution_parallel_swap (r1 r2 prev : Nat) (s : Store)
    (h : r1 ≠ r2) :
    (phiVisitBasicBlock
      [⟨r1, false, fun _ => .fromReg r2⟩, ⟨r2, false, fun _ => .fromReg r1⟩]
      prev s) r1 = s r2 ∧
    (phiVisitBasicBlock
      [⟨r1, false, fun _ => .fromReg r2⟩, ⟨r2, false, fun _ => .fromReg r1⟩]
      prev s) r2 = s r1 ∧
    (phiVisitBasicBlock
      [⟨r2, false, fun _ => .fromReg r1⟩, ⟨r1, false, fun _ => .fromReg r2⟩]
      prev s) r1 = s r2 ∧
    (phiVisitBasicBlock
      [⟨r2, false, fun _ => .fromReg r1⟩, ⟨r1, false, fun _ => .fromReg r2⟩]
      prev s) r2 = s r1 := by
  have h2 : r2 ≠ r1 := fun hh => h hh.symm
  refine ⟨?_, ?_, ?_, ?_⟩ <;>
    simp [phiVisitBasicBlock, phiReadOps, phiWriteOps, lookupOp, setValueS,
      writeStore, h, h2]

/-- Witness for C1: concrete registers 1 and 2, concrete store `s0`. -/
theorem phi_resolution_parallel_swap_witness :
    (1 : Nat) ≠ 2 ∧
    (phiVisitBasicBlock
      [⟨1, false, fun _ => .fromReg 2⟩, ⟨2, false, fun _ => .fromReg 1⟩]
      0 s0) 1 = s0 2 :=
  ⟨by decide, (phi_resolution_parallel_swap 1 2 0 s0 (by decide)).1⟩

/-! ### CFG edge execution (`Bv2OpSem::intraBr`) -/

/-- The condition operand of a conditional branch: either a compile-time
constant `i1` value (the `dyn_cast<const Constant>` case of `intraBr`,
whose concrete value `getConstantValue` always produces for `i1`
constants) or a non-constant value held in register `r` (read by
`getOperandValue`). -/
inductive BrCond where
  | constC (b : Bool)
  | symb (r : Nat)
  deriving DecidableEq

/-- A branch terminator: `br1` is an unconditional branch with its single
successor, `br2` a conditional branch with its condition and its
successor 0 (taken when true) and successor 1 (taken when false). -/
inductive BrInst where
  | br1 (succ : Nat)
  | br2 (cond : BrCond) (succT succF : Nat)
  deriving DecidableEq

/-- Context state relevant to branch execution: symbolic store,
side-condition list, current and previous basic block, and whether the
current function can fail (`CanFail` analysis consulted by
`Bv2OpSem::errorFlag`). -/
structure BrCtx where
  store : Store
  side : List SExpr
  currBb : Nat
  prevBb : Option Nat
  canFail : Bool

/-- Register holding the error flag of a basic block.  Modelled from the
spec: the per-block boolean "error flag" register of §4.6 (declared by
`OperationalSemantics::errorFlag`, whose definition is outside the
repository slice); each basic block `bb` owns one distinguished boolean
register. -/
def errorFlagReg (bb : Nat) : Nat := bb

/-- Reading the current block's error flag, `C.read(errorFlag(*C.getCurrBb()))`:
`Bv2OpSem::errorFlag` returns the constant `false` when the block's
function is proven unable to fail, and the per-block error-flag register
otherwise, whose current value is materialized from the store. -/
def errorFlagRead (C : BrCtx) : SExpr :=
  if C.canFail then C.store (errorFlagReg C.currBb) else SExpr.boolLit false

/-- Modelled from the spec: `OpSemContext::resetSide` (declared in
`BvOpSem2.hh`, outside the repository slice) discards all accumulated
side-conditions (§4.6 step 3: "all accumulated side-conditions for this
edge are discarded"). -/
def resetSide (C : BrCtx) : BrCtx := { C with side := [] }

/-- Modelled from the spec: `OpSemContext::addScopedSide` (declared in
`BvOpSem2.hh`, outside the repository slice) appends a boolean term to
the ordered side-condition list; edge execution runs under path
condition true (§4.6 step 1), under which the scoped add is a plain
append (§3 "Side-condition list", §4.6 step 4 "appended as a
side-condition"). -/
def addScopedSide (C : BrCtx) (e : SExpr) : BrCtx :=
  { C with side := C.side ++ [e] }

/-- `Bv2OpSemContext::onBasicBlockEntry`: the current block becomes the
previous block and `bb` becomes current. -/
def onBasicBlockEntry (C : BrCtx) (bb : Nat) : BrCtx :=
  { C with prevBb := some C.currBb, currBb := bb }

/-- `Bv2OpSem::intraBr`: execute the CFG edge from the current block to
`dst` for branch terminator `br`.  A conditional branch with a constant
condition that statically disagrees with `dst` (and an unconditional
branch whose successor is not `dst`) resets the side-conditions to the
current block's error flag alone; a symbolic conditional branch appends
the error flag OR-ed with the branch condition (negated when `dst` is
the false successor) and enters `dst`; an unconditional branch to `dst`
just enters `dst`. -/
def intraBr (C : BrCtx) (br : BrInst) (dst : Nat) : BrCtx :=
  match br with
  | .br2 cond succT succF =>
    match cond with
    | .constC b =>
      if (b = true ∧ succT ≠ dst) ∨ (b = false ∧ succF ≠ dst) then
        addScopedSide (resetSide C) (errorFlagRead C)
      else
        C
    | .symb r =>
      let target := C.store r
      let c1 : SExpr := if succT = dst then target else SExpr.negE target
      let c2 : SExpr := SExpr.lorE (errorFlagRead C) c1
      onBasicBlockEntry (addScopedSide C c2) dst
  | .br1 succ =>
    if succ ≠ dst then
      addScopedSide (resetSide C) (errorFlagRead C)
    else
      onBasicBlockEntry C dst

/-- Concrete branch context used in witnesses. -/
def brCtx0 : BrCtx :=
  { store := s0, side := [SExpr.boolLit true], currBb := 0, prevBb := none,
    canFail := true }

/-- C2: executing a statically infeasible CFG edge — a conditional branch
whose compile-time-constant condition selects a successor other than
`dst`, or an unconditional branch whose successor is not `dst` —
discards all accumulated side-conditions and replaces them with the
current block's error flag alone (and, being a total function, raises no
exception). -/
theorem intraBr_infeasible_edge (C : BrCtx) (b : Bool) (t f u dst : Nat)
    (h1 : (b = true ∧ t ≠ dst) ∨ (b = false ∧ f ≠ dst)) (h2 : u ≠ dst) :
    (intraBr C (.br2 (.constC b) t f) dst).side = [errorFlagRead C] ∧
    (intraBr C (.br1 u) dst).side = [errorFlagRead C] := by
  constructor
  · simp only [intraBr, if_pos h1, addScopedSide, resetSide]
    simp
  · simp only [intraBr, if_pos h2, addScopedSide, resetSide]
    simp

/-- Witness for C2: constant-true condition with true-successor 1 and
`dst = 2`, and an unconditional branch to 3 with `dst = 2`. -/
theorem intraBr_infeasible_edge_witness :
    ((true = true ∧ (1 : Nat) ≠ 2) ∨ (true = false ∧ (2 : Nat) ≠ 2)) ∧
    (3 : Nat) ≠ 2 ∧
    (intraBr brCtx0 (.br2 (.constC true) 1 2) 2).side =
      [errorFlagRead brCtx0] ∧
    (intraBr brCtx0 (.br1 3) 2).side = [errorFlagRead brCtx0] := by
  refine ⟨by decide, by decide, ?_, ?_⟩
  · exact (intraBr_infeasible_edge brCtx0 true 1 2 3 2
      (Or.inl ⟨rfl, by decide⟩) (by decide)).1
  · exact (intraBr_infeasible_edge brCtx0 true 1 2 3 2
      (Or.inl ⟨rfl, by decide⟩) (by decide)).2

/-- C3: executing a CFG edge whose terminator is a conditional branch
with a non-constant (symbolic) condition appends exactly one
side-condition — the disjunction of the current block's error flag with
the branch condition when `dst` is the true successor, and with its
negation when `dst` is (only) the false successor — and then enters the
destination block, leaving the store unchanged. -/
theorem intraBr_symbolic_cond (C : BrCtx) (r t f dst : Nat)
    (h : t = dst ∨ f = dst) :
    (intraBr C (.br2 (.symb r) t f) dst).side =
      C.side ++ [SExpr.lorE (errorFlagRead C)
        (if t = dst then C.store r else SExpr.negE (C.store r))] ∧
    (intraBr C (.br2 (.symb r) t f) dst).currBb = dst ∧
    (intraBr C (.br2 (.symb r) t f) dst).prevBb = some C.currBb ∧
    (intraBr C (.br2 (.symb r) t f) dst).store = C.store := by
  refine ⟨?_, ?_, ?_, ?_⟩ <;>
    simp [intraBr, addScopedSide, onBasicBlockEntry]

/-- Witness for C3: symbolic condition in register 5, true successor 1,
false successor 2, destination 1. -/
theorem intraBr_symbolic_cond_witness :
    ((1 : Nat) = 1 ∨ (2 : Nat) = 1) ∧
    (intraBr brCtx0 (.br2 (.symb 5) 1 2) 1).side =
      brCtx0.side ++ [SExpr.lorE (errorFlagRead brCtx0)
        (if (1 : Nat) = 1 then brCtx0.store 5
         else SExpr.negE (brCtx0.store 5))] :=
  ⟨Or.inl rfl, (intraBr_symbolic_cond brCtx0 5 1 2 1 (Or.inl rfl)).1⟩

/-- C10: executing a CFG edge whose terminator is an unconditional branch
to exactly `dst` appends no side-condition at all: the side-condition
list and the store are unchanged, and the context simply enters `dst`. -/
theorem intraBr_uncond_taken_frame (C : BrCtx) (dst : Nat) :
    (intraBr C (.br1 dst) dst).side = C.side ∧
    (intraBr C (.br1 dst) dst).store = C.store ∧
    (intraBr C (.br1 dst) dst).currBb = dst ∧
    (intraBr C (.br1 dst) dst).prevBb = some C.currBb := by
  refine ⟨?_, ?_, ?_, ?_⟩ <;> simp [intraBr, onBasicBlockEntry]

/-! ### Calloc interpretation (`OpSemVisitor::visitCallocCall`) -/

/-- Context state relevant to the interpretation of a `calloc` call: the
memory read/write meta-registers, the scalar flag, the register of the
call instruction's result, the store and the side-condition list. -/
structure CallocCtx where
  readReg : Option Nat
  writeReg : Option Nat
  scalar : Bool
  instReg : Nat
  store : Store
  side : List SExpr

/-- Reading a meta-register's current value; a meta-register holds the
name of a memory register whose value is materialized from the store
(`m_ctx.read(m_ctx.getMemReadRegister())`).  Reading through an unset
meta-register is out of contract in the source (it dereferences a null
expression); the model returns an arbitrary default there, and all
theorems assume the meta-registers are set. -/
def readMeta (s : Store) : Option Nat → SExpr
  | some r => s r
  | none => SExpr.boolLit false

/-- Modelled from the spec: `OpSemContext::addDef` (declared in
`BvOpSem2.hh`, outside the repository slice) records a definition as an
equality side-condition between its two arguments (§8 "no implicit
zero-fill side-condition is added" / "the resulting memory register is
provably a constant-zero array"). -/
def addDefC (C : CallocCtx) (a b : SExpr) : CallocCtx :=
  { C with side := C.side ++ [SExpr.eqE a b] }

/-- `OpSemVisitor::visitCallocCall`: when the read meta-register is unset
the call is treated as a nop (the source checks `getMemReadRegister()`
twice).  Otherwise, with the treat-calloc-as-malloc option on, the
written memory register is defined equal to the read memory register;
with it off, it is defined equal to a constant array holding the null
pointer at every index.  Finally the call's result register receives a
fresh pointer (`setValue(inst, havoc(inst))`). -/
def visitCallocCall (ignoreCalloc : Bool) (C : CallocCtx) : CallocCtx :=
  if C.readReg.isNone || C.readReg.isNone then C
  else
    let C1 :=
      if ignoreCalloc then
        addDefC C (readMeta C.store C.writeReg) (readMeta C.store C.readReg)
      else
        addDefC C (readMeta C.store C.writeReg)
          (SExpr.constArray SExpr.ptrSortE SExpr.nullPtr)
    { C1 with store := writeStore C1.store C1.instReg (havocVal C1.instReg) }

/-- Array-theory selection rule used to read a constant array: selecting
any index of `constArray sort v` yields `v`. -/
def arraySelect (a i : SExpr) : SExpr :=
  match a with
  | .constArray _ v => v
  | _ => SExpr.select a i

/-- C4: with both memory meta-registers set, interpreting `calloc` under
the treat-calloc-as-malloc option appends exactly one side-condition,
which only defines the written memory register equal to the read one
(no zero-fill constraint); with the option off, the appended
side-condition constrains the written memory register to be a constant
array that yields the null (zero) pointer at every address. -/
theorem visitCallocCall_toggle (C : CallocCtx) (r w : Nat)
    (hr : C.readReg = some r) (hw : C.writeReg = some w) :
    (visitCallocCall true C).side =
      C.side ++ [SExpr.eqE (C.store w) (C.store r)] ∧
    (visitCallocCall false C).side =
      C.side ++ [SExpr.eqE (C.store w)
        (SExpr.constArray SExpr.ptrSortE SExpr.nullPtr)] ∧
    (∀ i, arraySelect (SExpr.constArray SExpr.ptrSortE SExpr.nullPtr) i =
      SExpr.nullPtr) := by
  refine ⟨?_, ?_, fun i => rfl⟩ <;>
    simp [visitCallocCall, addDefC, readMeta, hr, hw]

/-- Concrete calloc context used in the C4 witness. -/
def callocCtx0 : CallocCtx :=
  { readReg := some 4, writeReg := some 6, scalar := false, instReg := 9,
    store := s0, side := [] }

/-- Witness for C4: read meta-register 4 and write meta-register 6. -/
theorem visitCallocCall_toggle_witness :
    callocCtx0.readReg = some 4 ∧ callocCtx0.writeReg = some 6 ∧
    (visitCallocCall true callocCtx0).side =
      callocCtx0.side ++ [SExpr.eqE (callocCtx0.store 6) (callocCtx0.store 4)] :=
  ⟨rfl, rfl, (visitCallocCall_toggle callocCtx0 4 6 rfl rfl).1⟩

/-! ### Memory operations (`executeLoadInst`, `executeStoreInst`,
`executeMemSetInst`, `executeMemCpyInst`) -/

/-- Context state relevant to memory operations: the memory read/write
meta-registers, the transfer read meta-register used by `memcpy`, the
scalar flag, and the symbolic store. -/
structure MemCtx where
  readReg : Option Nat
  writeReg : Option Nat
  trsfrReg : Option Nat
  scalar : Bool
  store : Store

/-- Result of executing one load or store: the produced memory term (the
null expression is `none`), the updated context, and whether the step
emitted a skip diagnostic (`LOG("opsem", ... "Skipping ...")`). -/
structure MemStep where
  res : Option SExpr
  ctx : MemCtx
  logged : Bool

/-- `OpSemVisitorBase::executeLoadInst`: with the read meta-register
unset, the empty result is returned immediately (no diagnostic, context
untouched).  Otherwise the scalar shortcut reads the scalar register
(coercing `i1` loads to boolean), or the value is loaded from memory
when the address operand is available; the read meta-register is cleared
before returning.  `addr` is the result of `lookup` on the pointer
operand and `tyIsI1` tells whether the loaded type is `i1`. -/
def executeLoadInst (addr : Option SExpr) (tyIsI1 : Bool) (c : MemCtx) :
    MemStep :=
  match c.readReg with
  | none => ⟨none, c, false⟩
  | some r =>
    let res : Option SExpr :=
      if c.scalar then
        some (if tyIsI1 then SExpr.bv1ToBool (c.store r) else c.store r)
      else
        match addr with
        | some a => some (SExpr.loadVal a (c.store r))
        | none => none
    ⟨res, { c with readReg := none }, false⟩

/-- `OpSemVisitorBase::executeStoreInst`: with the read or write
meta-register unset, or the stored value skipped, the store is skipped
with a diagnostic and both meta-registers cleared.  Otherwise the scalar
shortcut writes the value (coercing `i1` to a one-bit vector) to the
scalar register, or a new memory term is produced and written to the
write meta-register's memory register; both meta-registers are cleared
before returning, and a diagnostic is emitted whenever no result term
was produced.  `val`/`addr` are `lookup` results of the value and
pointer operands, `valSkipped` is `m_sem.isSkipped(val)`, and `valIsI1`
tells whether the stored type is `i1`. -/
def executeStoreInst (valSkipped : Bool) (val addr : Option SExpr)
    (valIsI1 : Bool) (c : MemCtx) : MemStep :=
  match c.readReg, c.writeReg with
  | some r, some w =>
    if valSkipped then
      ⟨none, { c with readReg := none, writeReg := none }, true⟩
    else
      match val with
      | some v =>
        if c.scalar then
          let v2 := if valIsI1 then SExpr.boolToBv1 v else v
          ⟨some v2,
            { c with store := writeStore c.store w v2,
                     readReg := none, writeReg := none }, false⟩
        else
          match addr with
          | some p =>
            let res := SExpr.storeVal v p (c.store r)
            ⟨some res,
              { c with store := writeStore c.store w res,
                       readReg := none, writeReg := none }, false⟩
          | none =>
            ⟨none, { c with readReg := none, writeReg := none }, true⟩
      | none => ⟨none, { c with readReg := none, writeReg := none }, true⟩
  | _, _ => ⟨none, { c with readReg := none, writeReg := none }, true⟩

/-- C9: every execution of a load leaves the memory read meta-register
unset, and every execution of a store leaves both the read and write
meta-registers unset, on all paths (scalar shortcut, ordinary access,
and the skipped/missing-register path): a following memory operation
without a fresh shadow-memory tag sees unset meta-registers. -/
theorem mem_meta_registers_consumed (addr val : Option SExpr)
    (i1 i2 sk : Bool) (c : MemCtx) :
    (executeLoadInst addr i1 c).ctx.readReg = none ∧
    (executeStoreInst sk val addr i2 c).ctx.readReg = none ∧
    (executeStoreInst sk val addr i2 c).ctx.writeReg = none := by
  refine ⟨?_, ?_, ?_⟩ <;>
    rcases hr : c.readReg with _ | r <;>
    rcases hw : c.writeReg with _ | w <;>
    rcases val with _ | v <;>
    rcases addr with _ | a <;>
    rcases sk with _ | _ <;>
    rcases hs : c.scalar with _ | _ <;>
    simp [executeLoadInst, executeStoreInst, hr, hw, hs]

/-- Concrete memory context for the C5 counterexample: the read
meta-register is unset while the write meta-register is still set. -/
def memCtx5 : MemCtx :=
  { readReg := none, writeReg := some 5, trsfrReg := none, scalar := false,
    store := s0 }

/-- Counterexample to C5: a load executed while its read meta-register is
unset returns the empty result but does NOT clear the (still set) write
meta-register and emits NO diagnostic, contradicting the claim that the
meta-registers are cleared and a diagnostic is logged. -/
theorem executeLoad_missing_reg_counterexample :
    ¬ ((executeLoadInst none false memCtx5).res = none ∧
       (executeLoadInst none false memCtx5).ctx.readReg = none ∧
       (executeLoadInst none false memCtx5).ctx.writeReg = none ∧
       (executeLoadInst none false memCtx5).logged = true) := by
  intro h
  exact absurd h.2.2.1 (by simp [executeLoadInst, memCtx5])

/-- C5 (amended): a store executed with the read or write meta-register
unset is skipped — empty result, both meta-registers cleared, store
untouched, and a skip diagnostic emitted; a load executed with the read
meta-register unset returns the empty result immediately, leaving the
context entirely unchanged (the read meta-register is already unset, the
write meta-register is left as-is) and emitting no diagnostic. -/
theorem mem_missing_meta_register_skip (addr val : Option SExpr)
    (i1 i2 sk : Bool) (c cs : MemCtx)
    (hload : c.readReg = none)
    (hstore : cs.readReg = none ∨ cs.writeReg = none) :
    (executeLoadInst addr i1 c).res = none ∧
    (executeLoadInst addr i1 c).ctx = c ∧
    (executeLoadInst addr i1 c).logged = false ∧
    (executeStoreInst sk val addr i2 cs).res = none ∧
    (executeStoreInst sk val addr i2 cs).ctx.readReg = none ∧
    (executeStoreInst sk val addr i2 cs).ctx.writeReg = none ∧
    (executeStoreInst sk val addr i2 cs).ctx.store = cs.store ∧
    (executeStoreInst sk val addr i2 cs).logged = true := by
  have hstep : executeStoreInst sk val addr i2 cs =
      ⟨none, { cs with readReg := none, writeReg := none }, true⟩ := by
    rcases hr : cs.readReg with _ | r
    · rcases hw : cs.writeReg with _ | w <;> simp [executeStoreInst, hr, hw]
    · rcases hw : cs.writeReg with _ | w
      · simp [executeStoreInst, hr, hw]
      · exfalso
        rcases hstore with h | h
        · rw [hr] at h; exact Option.noConfusion h
        · rw [hw] at h; exact Option.noConfusion h
  refine ⟨?_, ?_, ?_, ?_, ?_, ?_, ?_, ?_⟩ <;>
    simp [executeLoadInst, hload, hstep]

/-- Concrete store-side context for the C5 witness. -/
def memCtx5s : MemCtx :=
  { readReg := some 3, writeReg := none, trsfrReg := none, scalar := false,
    store := s0 }

/-- Witness for amended C5: a load with unset read meta-register and a
store with unset write meta-register. -/
theorem mem_missing_meta_register_skip_witness :
    memCtx5.readReg = none ∧
    (memCtx5s.readReg = none ∨ memCtx5s.writeReg = none) ∧
    (executeLoadInst none false memCtx5).logged = false ∧
    (executeStoreInst false none none false memCtx5s).logged = true := by
  have h := mem_missing_meta_register_skip none none false false false
    memCtx5 memCtx5s rfl (Or.inr rfl)
  exact ⟨rfl, Or.inr rfl, h.2.2.1, h.2.2.2.2.2.2.2⟩

/-- The length operand of a `memset`/`memcpy` call: either a compile-time
constant integer (`dyn_cast<const ConstantInt>` succeeds and
`getZExtValue` yields `n`) or a symbolic value held in a register. -/
inductive LenOp where
  | lenConst (n : Nat)
  | lenSym (r : Nat)
  deriving DecidableEq

/-- Outcome of a `memset`/`memcpy` step: a normal result (possibly the
null expression) with the updated context, or a fatal `llvm_unreachable`
abort with its diagnostic message. -/
inductive MemOut where
  | ok (res : Option SExpr) (c : MemCtx)
  | fatal (msg : String)

/-- `OpSemVisitorBase::executeMemSetInst`: skip (clearing both
meta-registers) when a meta-register is unset or an operand is skipped;
abort on the scalar shortcut; with both operand lookups available,
unroll a concrete-length memset into a memory term, and abort with an
explicit "unsupported" diagnostic when the length is symbolic. -/
def executeMemSetInst (dstSkipped valSkipped : Bool) (dst val : Option SExpr)
    (len : LenOp) (c : MemCtx) : MemOut :=
  match c.readReg, c.writeReg with
  | some r, some w =>
    if dstSkipped || valSkipped then
      .ok none { c with readReg := none, writeReg := none }
    else if c.scalar then
      .fatal "memset to scalars is not supported"
    else
      match val, dst with
      | some v, some a =>
        match len with
        | .lenConst n =>
          let res := SExpr.memSetE a v n (c.store r)
          .ok (some res)
            { c with store := writeStore c.store w res,
                     readReg := none, writeReg := none }
        | .lenSym _ => .fatal "Unsupported memset with symbolic length"
      | _, _ => .ok none { c with readReg := none, writeReg := none }
  | _, _ => .ok none { c with readReg := none, writeReg := none }

/-- `OpSemVisitorBase::executeMemCpyInst`: like `executeMemSetInst`, but
additionally requires the transfer read meta-register and clears it on
every normal path; a symbolic length aborts with an explicit
"unsupported" diagnostic. -/
def executeMemCpyInst (dstSkipped srcSkipped : Bool) (dst src : Option SExpr)
    (len : LenOp) (c : MemCtx) : MemOut :=
  match c.readReg, c.writeReg, c.trsfrReg with
  | some r, some w, some tr =>
    if dstSkipped || srcSkipped then
      .ok none
        { c with readReg := none, writeReg := none, trsfrReg := none }
    else if c.scalar then
      .fatal "memcpy to scalars is not supported"
    else
      match dst, src with
      | some d, some s2 =>
        match len with
        | .lenConst n =>
          let res := SExpr.memCpyE d s2 n (c.store tr) (c.store r)
          .ok (some res)
            { c with store := writeStore c.store w res,
                     readReg := none, writeReg := none, trsfrReg := none }
        | .lenSym _ => .fatal "Unsupported memcpy with symbolic length"
      | _, _ =>
        .ok none
          { c with readReg := none, writeReg := none, trsfrReg := none }
  | _, _, _ =>
    .ok none { c with readReg := none, writeReg := none, trsfrReg := none }

/-- C6: with meta-registers and operands available (and the scalar
shortcut off), a `memset` or `memcpy` whose length operand is not a
compile-time constant fails fast with an explicit "unsupported" abort;
and, over all inputs, only a concrete-length `memset`/`memcpy` ever
produces a result term. -/
theorem memtransfer_symbolic_length_fatal (c : MemCtx) (r w tr k : Nat)
    (a v d s2 : SExpr)
    (hr : c.readReg = some r) (hw : c.writeReg = some w)
    (ht : c.trsfrReg = some tr) (hs : c.scalar = false) :
    executeMemSetInst false false (some a) (some v) (.lenSym k) c =
      .fatal "Unsupported memset with symbolic length" ∧
    executeMemCpyInst false false (some d) (some s2) (.lenSym k) c =
      .fatal "Unsupported memcpy with symbolic length" ∧
    (∀ (ds vs : Bool) (dst val : Option SExpr) (len : LenOp) (cc : MemCtx)
      (res : SExpr) (c2 : MemCtx),
      executeMemSetInst ds vs dst val len cc = .ok (some res) c2 →
      ∃ n, len = .lenConst n) ∧
    (∀ (ds ss : Bool) (dst src : Option SExpr) (len : LenOp) (cc : MemCtx)
      (res : SExpr) (c2 : MemCtx),
      executeMemCpyInst ds ss dst src len cc = .ok (some res) c2 →
      ∃ n, len = .lenConst n) := by
  refine ⟨?_, ?_, ?_, ?_⟩
  · simp [executeMemSetInst, hr, hw, hs]
  · simp [executeMemCpyInst, hr, hw, ht, hs]
  · intro ds vs dst val len cc res c2 h
    rcases len with n | q
    · exact ⟨n, rfl⟩
    · exfalso
      rcases hcr : cc.readReg with _ | r2 <;>
        rcases hcw : cc.writeReg with _ | w2 <;>
        rcases dst with _ | d2 <;> rcases val with _ | v2 <;>
        rcases hds : ds with _ | _ <;> rcases hvs : vs with _ | _ <;>
        rcases hcs : cc.scalar with _ | _ <;>
        simp [executeMemSetInst, hcr, hcw, hcs, hds, hvs] at h
  · intro ds ss dst src len cc res c2 h
    rcases len with n | q
    · exact ⟨n, rfl⟩
    · exfalso
      rcases hcr : cc.readReg with _ | r2 <;>
        rcases hcw : cc.writeReg with _ | w2 <;>
        rcases hct : cc.trsfrReg with _ | t2 <;>
        rcases dst with _ | d2 <;> rcases src with _ | sv2 <;>
        rcases hds : ds with _ | _ <;> rcases hss : ss with _ | _ <;>
        rcases hcs : cc.scalar with _ | _ <;>
        simp [executeMemCpyInst, hcr, hcw, hct, hcs, hds, hss] at h

/-- Concrete context used in the C6 witness. -/
def memCtx6 : MemCtx :=
  { readReg := some 2, writeReg := some 4, trsfrReg := some 8,
    scalar := false, store := s0 }

/-- Witness for C6: a memset of symbolic length in a context with all
meta-registers set aborts with the "unsupported" message. -/
theorem memtransfer_symbolic_length_fatal_witness :
    memCtx6.readReg = some 2 ∧ memCtx6.writeReg = some 4 ∧
    memCtx6.trsfrReg = some 8 ∧ memCtx6.scalar = false ∧
    executeMemSetInst false false (some SExpr.nullPtr)
      (some (SExpr.havocE 1 1)) (.lenSym 3) memCtx6 =
      .fatal "Unsupported memset with symbolic length" :=
  ⟨rfl, rfl, rfl, rfl,
    (memtransfer_symbolic_length_fatal memCtx6 2 4 8 3 SExpr.nullPtr
      (SExpr.havocE 1 1) SExpr.nullPtr SExpr.nullPtr
      rfl rfl rfl rfl).1⟩

/-! ### Value-to-register mapping (`Bv2OpSemContext::mkRegister` /
`getRegister`) -/

/-- A context lineage for register declaration: a root context or a
forked child deferring to its parent.  Each context owns a
value-to-register map (`m_valueToRegister`, an insert-only map from
`llvm::Value` identities to register terms, keyed here by value ids). -/
inductive RCtx where
  | root (m : List (Nat × Nat))
  | child (m : List (Nat × Nat)) (p : RCtx)

/-- The context's own value-to-register map. -/
def RCtx.localMap : RCtx → List (Nat × Nat)
  | .root m => m
  | .child m _ => m

/-- The parent of a context, if it is a fork. -/
def RCtx.parentC : RCtx → Option RCtx
  | .root _ => none
  | .child _ p => some p

/-- Lookup in one context's own map (`DenseMap::lookup`). -/
def lookupLocal (m : List (Nat × Nat)) (v : Nat) : Option Nat :=
  match m with
  | [] => none
  | (v2, r) :: rest => if v2 = v then some r else lookupLocal rest v

/-- `Bv2OpSemContext::getRegister`: look up the value in the context's
own map and, when absent and the context is a fork, continue through the
parent chain. -/
def getRegister : RCtx → Nat → Option Nat
  | .root m, v => lookupLocal m v
  | .child m p, v =>
    match lookupLocal m v with
    | some r => some r
    | none => getRegister p v

/-- The register term constructed for a value (`bind::mkConst` applied to
`mkTerm<const Value *>(&v, efac())`): expression terms are hash-consed
by the expression factory, so the constructed register is a
deterministic function of the value's identity. -/
def regOfValue (v : Nat) : Nat := v

/-- Insertion into the context's own map only
(`m_valueToRegister.insert(std::make_pair(&v, reg))` on `this`); the
parent context is not touched. -/
def insertLocal (c : RCtx) (v r : Nat) : RCtx :=
  match c with
  | .root m => .root ((v, r) :: m)
  | .child m p => .child ((v, r) :: m) p

/-- `Bv2OpSemContext::mkRegister`: return the register already declared
for the value anywhere in the lineage, and only otherwise construct the
value's register and record it in this context's own map. -/
def mkRegister (c : RCtx) (v : Nat) : Nat × RCtx :=
  match getRegister c v with
  | some r => (r, c)
  | none => (regOfValue v, insertLocal c v (regOfValue v))

/-- C7: at most one register is ever associated with a value in a
context lineage — `mkRegister` returns the already-declared register
(including one found through the parent chain) without modifying the
context, creates a register only when the whole lineage lacks one
(after which the lineage maps the value to it), never mutates the
parent, is idempotent, and a child with no local entry sees exactly its
parent's mapping. -/
theorem mkRegister_unique_per_lineage (c : RCtx) (v : Nat) :
    (∀ r, getRegister c v = some r → mkRegister c v = (r, c)) ∧
    (getRegister c v = none →
      mkRegister c v = (regOfValue v, insertLocal c v (regOfValue v)) ∧
      getRegister (mkRegister c v).2 v = some (regOfValue v)) ∧
    (mkRegister c v).2.parentC = c.parentC ∧
    mkRegister (mkRegister c v).2 v = ((mkRegister c v).1, (mkRegister c v).2) ∧
    (∀ (m : List (Nat × Nat)) (p : RCtx), lookupLocal m v = none →
      getRegister (.child m p) v = getRegister p v) := by
  have hlocal : ∀ (m : List (Nat × Nat)) (r : Nat),
      lookupLocal ((v, r) :: m) v = some r := by
    intro m r; simp [lookupLocal]
  have hins : ∀ (c2 : RCtx) (r : Nat),
      getRegister (insertLocal c2 v r) v = some r := by
    intro c2 r
    cases c2 with
    | root m => simp [insertLocal, getRegister, hlocal]
    | child m p => simp [insertLocal, getRegister, hlocal]
  have hpar : ∀ (c2 : RCtx) (r : Nat),
      (insertLocal c2 v r).parentC = c2.parentC := by
    intro c2 r
    cases c2 with
    | root m => rfl
    | child m p => rfl
  refine ⟨?_, ?_, ?_, ?_, ?_⟩
  · intro r h; simp [mkRegister, h]
  · intro h
    constructor
    · simp [mkRegister, h]
    · simp [mkRegister, h, hins]
  · cases hg : getRegister c v with
    | none => simp [mkRegister, hg, hpar]
    | some r => simp [mkRegister, hg]
  · cases hg : getRegister c v with
    | none => simp [mkRegister, hg, hins]
    | some r => simp [mkRegister, hg]
  · intro m p h
    simp [getRegister, h]

/-- Witness for C7: a child context with an empty local map finds the
register declared by its parent and leaves the lineage untouched; a
fresh value gets a new register recorded locally. -/
theorem mkRegister_unique_per_lineage_witness :
    getRegister (.child [] (.root [(3, 99)])) 3 = some 99 ∧
    mkRegister (.child [] (.root [(3, 99)])) 3 =
      (99, .child [] (.root [(3, 99)])) ∧
    getRegister (.child [] (.root [(3, 99)])) 7 = none ∧
    mkRegister (.child [] (.root [(3, 99)])) 7 =
      (7, .child [(7, 7)] (.root [(3, 99)])) := by
  have h1 := (mkRegister_unique_per_lineage (.child [] (.root [(3, 99)])) 3).1
    99 (by simp [getRegister, lookupLocal])
  have h2 := ((mkRegister_unique_per_lineage (.child [] (.root [(3, 99)])) 7).2.1
    (by simp [getRegister, lookupLocal])).1
  exact ⟨by simp [getRegister, lookupLocal], h1,
    by simp [getRegister, lookupLocal], h2⟩

/-! ### Solver context push/pop (`yices_impl` in `Yices2Impl.cc`) -/

/-- Modelled from the spec: the underlying solver's assertion-stack
context (the yices library is an external collaborator per §1; per §9
`push` opens a new backtracking scope and a correct `pop` is its logical
inverse).  The context is modelled by its backtracking depth. -/
def yicesPush (d : Nat) : Nat := d + 1

/-- Modelled from the spec: the underlying solver's scope removal, the
logical inverse of `yicesPush` on non-empty stacks. -/
def yicesPop (d : Nat) : Nat := d - 1

/-- `yices_impl::push`: pushes a context via `yices_push(d_ctx)`. -/
def yicesImplPush (d : Nat) : Nat := yicesPush d

/-- `yices_impl::pop`: the source calls `yices_push(d_ctx)` — the same
underlying operation as `push` — instead of `yices_pop`. -/
def yicesImplPop (d : Nat) : Nat := yicesPush d

/-- C8: the solver context's `pop()` duplicates the `push()` call — it
performs the identical underlying context-push operation — so
`push(); pop()` never returns the solver context to its pre-push state
(the backtracking depth grows by two instead of returning to its
original value). -/
theorem yices_pop_duplicates_push :
    (∀ d, yicesImplPop d = yicesImplPush d) ∧
    (∀ d, yicesImplPop (yicesImplPush d) ≠ d) ∧
    (∀ d, yicesPop (yicesPush d) = d) := by
  refine ⟨fun d => rfl, fun d => ?_, fun d => rfl⟩
  simp [yicesImplPop, yicesImplPush, yicesPush]
  omega

end SeaHorn
